import Mathlib

/-!
Verification of the KG-Agent framework core (src/framework_name/core.py).

This file gives a shallow embedding of the four components of the core
module — Memory, Toolbox, KGExecutor and KGAgent (decision parsing and the
orchestration loop) — and proves the specified properties about them.

Modelling conventions:
* Python dict values are modelled by the inductive `PyVal`; a dict whose
  keys are strings is an association list `List (String × PyVal)`.
* Machine strings are Lean `String`s; the character-level operations the
  parser needs (strip, upper, whitespace split) are defined on `List Char`
  following CPython semantics for the ASCII fragment (every string the
  claims exercise is ASCII).
* Exceptions become `Except`: a tool callable returns
  `Except String PyVal`, the error carrying the text of `str(e)`;
  `Toolbox.call` returns its result together with the post-call registry,
  mirroring that the method body never mutates `self._tools`.
* The agent loop `KGAgent.run` is a fuel recursion over the remaining
  iterations of `for step in range(self.max_steps)`; alongside the return
  value it also yields the list of records appended to Memory, the final
  `state['steps']` list, and the number of LLM invocations (the loop body
  invokes the LLM exactly once per iteration).
-/

/-- Python values as they occur in the core module: `None`, strings,
integers, lists, and string-keyed dicts. -/
inductive PyVal where
  | none : PyVal
  | str (s : String) : PyVal
  | int (n : Int) : PyVal
  | list (xs : List PyVal) : PyVal
  | dict (kvs : List (String × PyVal)) : PyVal

/-- A memory record: a Python dict with string keys (`Dict[str, Any]`). -/
abbrev MemRecord := List (String × PyVal)

/-- The `Memory._store` list. -/
abbrev Memory := List MemRecord

/-- Python `rec[k]`-style lookup on a dict (first matching key; the dict
literals built by the core have distinct keys). -/
def pyLookup (rec : MemRecord) (k : String) : Option PyVal :=
  (rec.find? (fun p => p.1 == k)).map (fun p => p.2)

/-- Python `k in rec` on a dict: membership among the top-level keys
(values are not inspected). -/
def pyInKey (k : String) (rec : MemRecord) : Bool :=
  rec.any (fun p => p.1 == k)

/-- Memory.add: `self._store.append(item)`. -/
def Memory.add (m : Memory) (item : MemRecord) : Memory :=
  m ++ [item]

/-- Memory.query: `list(self._store)` when `key is None`, else
`[s for s in self._store if key in s]`. -/
def Memory.query (m : Memory) (key : Option String) : Memory :=
  match key with
  | Option.none => m
  | Option.some k => m.filter (fun s => pyInKey k s)

/-- Whitespace test of CPython `str.split()` / `str.strip()`, restricted to
the ASCII whitespace characters. -/
def pyIsSpace (c : Char) : Bool :=
  c == ' ' || c == '\t' || c == '\n' || c == '\r' || c == '\x0b' || c == '\x0c'

/-- Python `str.strip()` on the character list: drop whitespace from both
ends. -/
def stripL (l : List Char) : List Char :=
  ((l.dropWhile pyIsSpace).reverse.dropWhile pyIsSpace).reverse

/-- Python `str.upper()` on one character (ASCII fragment). -/
def asciiUpper (c : Char) : Char :=
  if 'a' ≤ c ∧ c ≤ 'z' then Char.ofNat (c.toNat - 32) else c

/-- Python `str.upper()` on the character list (ASCII fragment). -/
def upperL (l : List Char) : List Char :=
  l.map asciiUpper

/-- Python `text.split(maxsplit=2)`: split on runs of whitespace, at most
two splits; after the second split the remainder (with its separating
whitespace run consumed) is kept verbatim. -/
def pySplit2 (l : List Char) : List (List Char) :=
  let l1 := l.dropWhile pyIsSpace
  if l1 = [] then [] else
    let w1 := l1.takeWhile (fun c => !pyIsSpace c)
    let r1 := (l1.dropWhile (fun c => !pyIsSpace c)).dropWhile pyIsSpace
    if r1 = [] then [w1] else
      let w2 := r1.takeWhile (fun c => !pyIsSpace c)
      let r2 := (r1.dropWhile (fun c => !pyIsSpace c)).dropWhile pyIsSpace
      if r2 = [] then [w1, w2] else [w1, w2, r2]

/-- Guard of the first branch of `_parse_llm_response`:
`text.upper().startswith("ANSWER:")` (applied to the stripped text). -/
def answerGuard (t : List Char) : Bool :=
  List.isPrefixOf "ANSWER:".data (upperL t)

/-- Guard of the second branch of `_parse_llm_response`:
`text.startswith("CALL ")` (applied to the stripped text). -/
def callGuard (t : List Char) : Bool :=
  List.isPrefixOf "CALL ".data t

/-- Payload of a parsed decision: the parser stores either a plain string
(`answer`, `run_program`) or the dict `{'tool': ..., 'args': ...}` whose
two values are strings (`call_tool`). -/
inductive Payload where
  | strP (s : String)
  | toolArgs (tool : String) (args : String)
deriving DecidableEq

/-- The decision dict `{'action': ..., 'payload': ...}` returned by
`_parse_llm_response`: the action tag is kept as the raw string the code
compares against, so that the dispatch chain of `run` (including its
final catch-all `break`) can be embedded as written. -/
structure Decision where
  action : String
  payload : Payload
deriving DecidableEq

/-- Payload as a Python value (what `decision['payload']` denotes). -/
def Payload.toVal : Payload → PyVal
  | Payload.strP s => PyVal.str s
  | Payload.toolArgs t a => PyVal.dict [("tool", PyVal.str t), ("args", PyVal.str a)]

/-- Python `payload.get('tool')` on a `call_tool` payload. The `strP` case
is unreachable from the parser (a `call_tool` decision always carries a
`toolArgs` payload) and is given a harmless default. -/
def Payload.getTool : Payload → String
  | Payload.toolArgs t _ => t
  | Payload.strP _ => ""

/-- Python `payload.get('args', '')` on a `call_tool` payload; same
unreachability remark as for `getTool`. -/
def Payload.getArgs : Payload → String
  | Payload.toolArgs _ a => a
  | Payload.strP _ => ""

/-- The payload string of an `answer` or `run_program` decision; the
`toolArgs` case is unreachable from the parser. -/
def Payload.getStr : Payload → String
  | Payload.strP s => s
  | Payload.toolArgs _ _ => ""

/-- KGAgent._parse_llm_response: strip, then the priority chain
ANSWER-prefix / CALL-prefix / run_program. -/
def KGAgent.parse_llm_response (response : String) : Decision :=
  let text := stripL response.data
  if answerGuard text then
    { action := "answer", payload := Payload.strP (String.mk (stripL (text.drop 7))) }
  else if callGuard text then
    let parts := pySplit2 text
    let tool := parts.getD 1 []
    let args := parts.getD 2 []
    { action := "call_tool", payload := Payload.toolArgs (String.mk tool) (String.mk args) }
  else
    { action := "run_program", payload := Payload.strP (String.mk text) }

/-- A registered tool callable: takes the raw argument string, returns a
value or raises (the error string is the text of `str(e)`). -/
def ToolFn := String → Except String PyVal

/-- The `Toolbox._tools` registry. `register` conses, and `lookup` takes
the first match, so rebinding a name shadows the old binding
(last-write-wins, as for the Python dict). -/
abbrev Toolbox := List (String × ToolFn)

/-- Toolbox.register: `self._tools[name] = fn`. -/
def Toolbox.register (tb : Toolbox) (name : String) (fn : ToolFn) : Toolbox :=
  (name, fn) :: tb

/-- Registry lookup, `self._tools[name]` guarded by `name in self._tools`. -/
def Toolbox.lookup (tb : Toolbox) (name : String) : Option ToolFn :=
  (tb.find? (fun p => p.1 == name)).map (fun p => p.2)

/-- Message of the `KeyError` raised for an unregistered name:
`f"Tool '{name}' not registered"`. -/
def keyErrMsg (name : String) : String :=
  "Tool \x27" ++ name ++ "\x27 not registered"

/-- The two ways `Toolbox.call` can raise: the lookup-miss `KeyError`
(the spec's ToolNotFoundError) or an exception surfaced by the tool
itself. -/
inductive CallErr where
  | keyError (msg : String)
  | toolRaised (msg : String)
deriving DecidableEq

/-- Python `str(e)` for the exceptions of `CallErr`. For a `KeyError` this
is the `repr` of its argument, which CPython renders in double quotes
because the message contains single quotes. -/
def CallErr.pyStr : CallErr → String
  | CallErr.keyError m => "\x22" ++ m ++ "\x22"
  | CallErr.toolRaised m => m

/-- Return value (or exception) of `Toolbox.call`. -/
def Toolbox.callRes (tb : Toolbox) (name args : String) : Except CallErr PyVal :=
  match Toolbox.lookup tb name with
  | Option.none => Except.error (CallErr.keyError (keyErrMsg name))
  | Option.some fn =>
    match fn args with
    | Except.ok v => Except.ok v
    | Except.error m => Except.error (CallErr.toolRaised m)

/-- Toolbox.call with the registry threaded through: the method body reads
`self._tools` but never writes it, so the post-call registry is the
pre-call registry. -/
def Toolbox.call (tb : Toolbox) (name args : String) : Except CallErr PyVal × Toolbox :=
  (Toolbox.callRes tb name args, tb)

/-- Toolbox.call instrumented with an invocation log: the single call site
`self._tools[name](*args, **kwargs)` logs the pair (name of the callable
invoked, argument passed). Used to state that a registered callable is
invoked exactly once with exactly the given argument. -/
def Toolbox.callTraced (tb : Toolbox) (name args : String) :
    Except CallErr PyVal × List (String × String) :=
  match Toolbox.lookup tb name with
  | Option.none => (Except.error (CallErr.keyError (keyErrMsg name)), [])
  | Option.some fn =>
    match fn args with
    | Except.ok v => (Except.ok v, [(name, args)])
    | Except.error m => (Except.error (CallErr.toolRaised m), [(name, args)])

/-- KGExecutor.load_graph: `raise NotImplementedError("KG loading not implemented")`. -/
def KGExecutor.load_graph (source : String) : Except String Unit :=
  Except.error "KG loading not implemented"

/-- KGExecutor.query: returns the empty result list unconditionally. -/
def KGExecutor.query (sparql : String) : List MemRecord :=
  []

/-- KGExecutor.execute_program: the stub returns `None` unconditionally. -/
def KGExecutor.execute_program (program : String) : PyVal :=
  PyVal.none

mutual

/-- Python `repr` (ASCII fragment, no quote/backslash escaping needed by
the strings the core builds). -/
def pyRepr : PyVal → String
  | PyVal.none => "None"
  | PyVal.str s => "\x27" ++ s ++ "\x27"
  | PyVal.int n => toString n
  | PyVal.list xs => "[" ++ pyReprItems xs ++ "]"
  | PyVal.dict kvs => "\x7b" ++ pyReprFields kvs ++ "\x7d"

def pyReprItems : List PyVal → String
  | [] => ""
  | [x] => pyRepr x
  | x :: y :: xs => pyRepr x ++ ", " ++ pyReprItems (y :: xs)

def pyReprFields : List (String × PyVal) → String
  | [] => ""
  | [(k, v)] => "\x27" ++ k ++ "\x27: " ++ pyRepr v
  | (k, v) :: y :: xs => "\x27" ++ k ++ "\x27: " ++ pyRepr v ++ ", " ++ pyReprFields (y :: xs)

end

/-- KGAgent._format_prompt: the f-string
`f"Question: ...\nState: ...\nProvide next action (tool/program) or final answer."`,
where the state is the dict `{'steps': [...], 'memory_summary': None}`
rendered by `str` (= `repr` for dicts). -/
def KGAgent.format_prompt (question : String) (stSteps : List MemRecord) : String :=
  "Question: " ++ question ++ "\nState: " ++
    pyRepr (PyVal.dict
      [("steps", PyVal.list (stSteps.map PyVal.dict)), ("memory_summary", PyVal.none)]) ++
    "\nProvide next action (tool/program) or final answer."

/-- The fixed best-effort summary returned when the loop ends without an
answer. -/
def timeoutSummary : String :=
  "Unable to reach final answer within step limit."

/-- The record `{'type': 'timeout', 'summary': summary}` appended after
the loop; note it carries no `step` key. -/
def timeoutRec : MemRecord :=
  [("type", PyVal.str "timeout"), ("summary", PyVal.str timeoutSummary)]

/-- Observable outcome of a call to `KGAgent.run`: the returned value, the
records appended to Memory (in order), the final `state['steps']`, and
the number of invocations of the LLM collaborator. -/
structure RunResult where
  result : PyVal
  added : List MemRecord
  stateSteps : List MemRecord
  llmCalls : Nat

/-- Loop body of KGAgent.run, fuel recursion: `step` is the current value
of the loop variable, the fuel is the number of iterations left in
`range(self.max_steps)`, and `st` is the current `state['steps']`. The LLM
collaborator is a function of the prompt and the metadata step. The
executor's `execute_program` is a parameter (`KGExecutor.execute_program`
for the default stub executor). Falling out of the loop — by exhausting
the fuel or by the catch-all `break` — appends the timeout record and
returns the fixed summary. -/
def KGAgent.runAux (llm : String → Nat → String) (tb : Toolbox)
    (ex : String → PyVal) (question : String) :
    Nat → Nat → List MemRecord → RunResult
  | _, 0, st =>
    { result := PyVal.str timeoutSummary, added := [timeoutRec],
      stateSteps := st, llmCalls := 0 }
  | step, fuel + 1, st =>
    let prompt := KGAgent.format_prompt question st
    let response := llm prompt step
    let decision := KGAgent.parse_llm_response response
    if decision.action = "answer" then
      let ans := decision.payload.toVal
      { result := ans,
        added := [[("type", PyVal.str "final_answer"), ("answer", ans),
                   ("step", PyVal.int step)]],
        stateSteps := st, llmCalls := 1 }
    else if decision.action = "call_tool" then
      let tool_name := decision.payload.getTool
      let args := decision.payload.getArgs
      let out : PyVal :=
        match (Toolbox.call tb tool_name args).1 with
        | Except.ok v => v
        | Except.error e => PyVal.dict [("error", PyVal.str e.pyStr)]
      let entry : MemRecord :=
        [("action", PyVal.str "call_tool"), ("tool", PyVal.str tool_name), ("out", out)]
      let r := KGAgent.runAux llm tb ex question (step + 1) fuel (st ++ [entry])
      { result := r.result,
        added := [("type", PyVal.str "tool"), ("tool", PyVal.str tool_name),
                  ("out", out), ("step", PyVal.int step)] :: r.added,
        stateSteps := r.stateSteps, llmCalls := r.llmCalls + 1 }
    else if decision.action = "run_program" then
      let program := decision.payload.getStr
      let result := ex program
      let entry : MemRecord :=
        [("action", PyVal.str "run_program"), ("program", PyVal.str program), ("out", result)]
      let r := KGAgent.runAux llm tb ex question (step + 1) fuel (st ++ [entry])
      { result := r.result,
        added := [("type", PyVal.str "program"), ("program", PyVal.str program),
                  ("out", result), ("step", PyVal.int step)] :: r.added,
        stateSteps := r.stateSteps, llmCalls := r.llmCalls + 1 }
    else
      { result := PyVal.str timeoutSummary, added := [timeoutRec],
        stateSteps := st, llmCalls := 1 }

/-- KGAgent.run: initial state `{'steps': [], 'memory_summary': None}`,
loop `for step in range(self.max_steps)` (empty when `max_steps <= 0`,
exactly as Python's `range`). -/
def KGAgent.run (llm : String → Nat → String) (tb : Toolbox)
    (ex : String → PyVal) (question : String) (max_steps : Int) : RunResult :=
  KGAgent.runAux llm tb ex question 0 max_steps.toNat []

/-- Default of the constructor parameter `max_steps: int = 10`. -/
def KGAgent.defaultMaxSteps : Int := 10

/-- The `out` value of a `call_tool` iteration: the tool result, or the
dict `{'error': str(e)}` built by the `except` clause. -/
def toolOut (tb : Toolbox) (t a : String) : PyVal :=
  match (Toolbox.call tb t a).1 with
  | Except.ok v => v
  | Except.error e => PyVal.dict [("error", PyVal.str e.pyStr)]

/-- The memory record of a `call_tool` iteration. -/
def toolMemRec (tb : Toolbox) (t a : String) (step : Nat) : MemRecord :=
  [("type", PyVal.str "tool"), ("tool", PyVal.str t),
   ("out", toolOut tb t a), ("step", PyVal.int step)]

/-- The `state['steps']` entry of a `call_tool` iteration. -/
def toolStateEntry (tb : Toolbox) (t a : String) : MemRecord :=
  [("action", PyVal.str "call_tool"), ("tool", PyVal.str t), ("out", toolOut tb t a)]

/-- The memory record of a `run_program` iteration. -/
def progMemRec (ex : String → PyVal) (s : String) (step : Nat) : MemRecord :=
  [("type", PyVal.str "program"), ("program", PyVal.str s),
   ("out", ex s), ("step", PyVal.int step)]

/-- The `state['steps']` entry of a `run_program` iteration. -/
def progStateEntry (ex : String → PyVal) (s : String) : MemRecord :=
  [("action", PyVal.str "run_program"), ("program", PyVal.str s), ("out", ex s)]

/-- The memory record of an `answer` iteration. -/
def faMemRec (s : String) (step : Nat) : MemRecord :=
  [("type", PyVal.str "final_answer"), ("answer", PyVal.str s), ("step", PyVal.int step)]

/-! Helper lemmas about the parser and the loop. -/

theorem parse_eq_answer (r : String) (ha : answerGuard (stripL r.data) = true) :
    KGAgent.parse_llm_response r =
      { action := "answer",
        payload := Payload.strP (String.mk (stripL ((stripL r.data).drop 7))) } := by
  simp [KGAgent.parse_llm_response, ha]

theorem parse_eq_call (r : String) (ha : answerGuard (stripL r.data) = false)
    (hc : callGuard (stripL r.data) = true) :
    KGAgent.parse_llm_response r =
      { action := "call_tool",
        payload := Payload.toolArgs (String.mk ((pySplit2 (stripL r.data)).getD 1 []))
          (String.mk ((pySplit2 (stripL r.data)).getD 2 [])) } := by
  simp [KGAgent.parse_llm_response, ha, hc]

theorem parse_eq_program (r : String) (ha : answerGuard (stripL r.data) = false)
    (hc : callGuard (stripL r.data) = false) :
    KGAgent.parse_llm_response r =
      { action := "run_program", payload := Payload.strP (String.mk (stripL r.data)) } := by
  simp [KGAgent.parse_llm_response, ha, hc]

theorem parse_cases (r : String) :
    (∃ s, KGAgent.parse_llm_response r = { action := "answer", payload := Payload.strP s }) ∨
    (∃ t a, KGAgent.parse_llm_response r =
      { action := "call_tool", payload := Payload.toolArgs t a }) ∨
    (∃ s, KGAgent.parse_llm_response r =
      { action := "run_program", payload := Payload.strP s }) := by
  by_cases ha : answerGuard (stripL r.data)
  · exact Or.inl ⟨_, parse_eq_answer r ha⟩
  · by_cases hc : callGuard (stripL r.data)
    · exact Or.inr (Or.inl ⟨_, _, parse_eq_call r (by simpa using ha) hc⟩)
    · exact Or.inr (Or.inr ⟨_, parse_eq_program r (by simpa using ha) (by simpa using hc)⟩)

theorem runAux_zero (llm : String → Nat → String) (tb : Toolbox) (ex : String → PyVal)
    (q : String) (step : Nat) (st : List MemRecord) :
    KGAgent.runAux llm tb ex q step 0 st =
      { result := PyVal.str timeoutSummary, added := [timeoutRec],
        stateSteps := st, llmCalls := 0 } := rfl

theorem runAux_succ_answer (llm : String → Nat → String) (tb : Toolbox) (ex : String → PyVal)
    (q : String) (step fuel : Nat) (st : List MemRecord) (s : String)
    (hp : KGAgent.parse_llm_response (llm (KGAgent.format_prompt q st) step) =
      { action := "answer", payload := Payload.strP s }) :
    KGAgent.runAux llm tb ex q step (fuel + 1) st =
      { result := PyVal.str s,
        added := [faMemRec s step],
        stateSteps := st, llmCalls := 1 } := by
  simp only [KGAgent.runAux, hp]
  rfl

theorem runAux_succ_tool (llm : String → Nat → String) (tb : Toolbox) (ex : String → PyVal)
    (q : String) (step fuel : Nat) (st : List MemRecord) (t a : String)
    (hp : KGAgent.parse_llm_response (llm (KGAgent.format_prompt q st) step) =
      { action := "call_tool", payload := Payload.toolArgs t a }) :
    KGAgent.runAux llm tb ex q step (fuel + 1) st =
      { result :=
          (KGAgent.runAux llm tb ex q (step + 1) fuel (st ++ [toolStateEntry tb t a])).result,
        added := toolMemRec tb t a step ::
          (KGAgent.runAux llm tb ex q (step + 1) fuel (st ++ [toolStateEntry tb t a])).added,
        stateSteps :=
          (KGAgent.runAux llm tb ex q (step + 1) fuel (st ++ [toolStateEntry tb t a])).stateSteps,
        llmCalls :=
          (KGAgent.runAux llm tb ex q (step + 1) fuel
            (st ++ [toolStateEntry tb t a])).llmCalls + 1 } := by
  simp only [KGAgent.runAux, hp]
  rfl

theorem runAux_succ_program (llm : String → Nat → String) (tb : Toolbox) (ex : String → PyVal)
    (q : String) (step fuel : Nat) (st : List MemRecord) (s : String)
    (hp : KGAgent.parse_llm_response (llm (KGAgent.format_prompt q st) step) =
      { action := "run_program", payload := Payload.strP s }) :
    KGAgent.runAux llm tb ex q step (fuel + 1) st =
      { result :=
          (KGAgent.runAux llm tb ex q (step + 1) fuel (st ++ [progStateEntry ex s])).result,
        added := progMemRec ex s step ::
          (KGAgent.runAux llm tb ex q (step + 1) fuel (st ++ [progStateEntry ex s])).added,
        stateSteps :=
          (KGAgent.runAux llm tb ex q (step + 1) fuel (st ++ [progStateEntry ex s])).stateSteps,
        llmCalls :=
          (KGAgent.runAux llm tb ex q (step + 1) fuel
            (st ++ [progStateEntry ex s])).llmCalls + 1 } := by
  simp only [KGAgent.runAux, hp]
  rfl

theorem faMemRec_step (s : String) (step : Nat) :
    pyLookup (faMemRec s step) "step" = some (PyVal.int step) := rfl

theorem toolMemRec_step (tb : Toolbox) (t a : String) (step : Nat) :
    pyLookup (toolMemRec tb t a step) "step" = some (PyVal.int step) := rfl

theorem progMemRec_step (ex : String → PyVal) (s : String) (step : Nat) :
    pyLookup (progMemRec ex s step) "step" = some (PyVal.int step) := rfl

theorem timeoutRec_step : pyLookup timeoutRec "step" = none := rfl

theorem timeoutRec_type : pyLookup timeoutRec "type" = some (PyVal.str "timeout") := rfl

theorem faMemRec_type (s : String) (step : Nat) :
    pyLookup (faMemRec s step) "type" = some (PyVal.str "final_answer") := rfl

theorem toolMemRec_type (tb : Toolbox) (t a : String) (step : Nat) :
    pyLookup (toolMemRec tb t a step) "type" = some (PyVal.str "tool") := rfl

theorem progMemRec_type (ex : String → PyVal) (s : String) (step : Nat) :
    pyLookup (progMemRec ex s step) "type" = some (PyVal.str "program") := rfl

/-- Each record the loop appends to Memory carries the loop iteration that
produced it as its `step` value — except the timeout record, which carries
no `step` key at all. Position `j` in the appended-records list of a run
starting at iteration `step` is produced by iteration `step + j`. -/
theorem runAux_added_lookup (llm : String → Nat → String) (tb : Toolbox) (ex : String → PyVal)
    (q : String) :
    ∀ (fuel step : Nat) (st : List MemRecord) (j : Nat) (rc : MemRecord),
    (KGAgent.runAux llm tb ex q step fuel st).added.get? j = some rc →
    pyLookup rc "step" = some (PyVal.int (step + j)) ∨
      (pyLookup rc "step" = none ∧ pyLookup rc "type" = some (PyVal.str "timeout")) := by
  intro fuel
  induction fuel with
  | zero =>
    intro step st j rc h
    rw [runAux_zero] at h
    cases j with
    | zero =>
      simp only [List.get?] at h
      cases h
      exact Or.inr ⟨timeoutRec_step, timeoutRec_type⟩
    | succ j => simp at h
  | succ fuel ih =>
    intro step st j rc h
    rcases parse_cases (llm (KGAgent.format_prompt q st) step) with ⟨s, hp⟩ | ⟨t, a, hp⟩ | ⟨s, hp⟩
    · rw [runAux_succ_answer llm tb ex q step fuel st s hp] at h
      cases j with
      | zero =>
        simp only [List.get?] at h
        cases h
        left
        simp [faMemRec_step]
      | succ j => simp at h
    · rw [runAux_succ_tool llm tb ex q step fuel st t a hp] at h
      cases j with
      | zero =>
        simp only [List.get?] at h
        cases h
        left
        simp [toolMemRec_step]
      | succ j =>
        simp only [List.get?] at h
        rcases ih (step + 1) (st ++ [toolStateEntry tb t a]) j rc h with h1 | h1
        · left
          rw [h1]
          congr 2
          omega
        · exact Or.inr h1
    · rw [runAux_succ_program llm tb ex q step fuel st s hp] at h
      cases j with
      | zero =>
        simp only [List.get?] at h
        cases h
        left
        simp [progMemRec_step]
      | succ j =>
        simp only [List.get?] at h
        rcases ih (step + 1) (st ++ [progStateEntry ex s]) j rc h with h1 | h1
        · left
          rw [h1]
          congr 2
          omega
        · exact Or.inr h1

theorem mem_takeWhile_eq {p : Char → Bool} : ∀ {l : List Char} {c : Char},
    c ∈ l.takeWhile p → p c = true := by
  intro l
  induction l with
  | nil => intro c h; simp [List.takeWhile] at h
  | cons a l ih =>
    intro c h
    rw [List.takeWhile_cons] at h
    by_cases hp : p a = true
    · rw [if_pos hp] at h
      rcases List.mem_cons.mp h with h1 | h1
      · rwa [h1]
      · exact ih h1
    · rw [if_neg hp] at h
      simp at h

theorem dropWhile_head_false {p : Char → Bool} : ∀ {l : List Char} {c : Char} {cs : List Char},
    l.dropWhile p = c :: cs → p c = false := by
  intro l
  induction l with
  | nil => intro c cs h; simp [List.dropWhile] at h
  | cons a l ih =>
    intro c cs h
    rw [List.dropWhile_cons] at h
    by_cases hp : p a = true
    · rw [if_pos hp] at h
      exact ih h
    · rw [if_neg hp] at h
      cases h
      simpa using hp

theorem dropWhile_eq_nil_all {p : Char → Bool} {l : List Char} (h : l.dropWhile p = []) :
    ∀ c ∈ l, p c = true := by
  intro c hc
  have htw : l.takeWhile p = l := by
    have h2 := List.takeWhile_append_dropWhile p l
    rwa [h, List.append_nil] at h2
  exact mem_takeWhile_eq (htw ▸ hc)

theorem prefix_exists : ∀ (p l : List Char), List.isPrefixOf p l = true → ∃ u, l = p ++ u := by
  intro p
  induction p with
  | nil => intro l _; exact ⟨l, rfl⟩
  | cons a p ih =>
    intro l h
    cases l with
    | nil => simp [List.isPrefixOf] at h
    | cons b l =>
      simp only [List.isPrefixOf, Bool.and_eq_true, beq_iff_eq] at h
      obtain ⟨h1, h2⟩ := h
      obtain ⟨u, hu⟩ := ih l h2
      exact ⟨u, by rw [h1, hu]; rfl⟩

theorem isPrefixOf_append_self : ∀ (p u : List Char), List.isPrefixOf p (p ++ u) = true := by
  intro p
  induction p with
  | nil => intro u; simp [List.isPrefixOf]
  | cons a p ih => intro u; simp [List.isPrefixOf, ih]

theorem pyIsSpace_C : pyIsSpace 'C' = false := rfl

theorem pyIsSpace_A : pyIsSpace 'A' = false := rfl

theorem pyIsSpace_L : pyIsSpace 'L' = false := rfl

theorem pyIsSpace_blank : pyIsSpace ' ' = true := rfl

theorem pySplit2_call (u : List Char) :
    pySplit2 ('C' :: 'A' :: 'L' :: 'L' :: ' ' :: u) =
      (if u.dropWhile pyIsSpace = [] then [['C', 'A', 'L', 'L']] else
        if ((u.dropWhile pyIsSpace).dropWhile (fun c => !pyIsSpace c)).dropWhile pyIsSpace
            = [] then
          [['C', 'A', 'L', 'L'], (u.dropWhile pyIsSpace).takeWhile (fun c => !pyIsSpace c)]
        else
          [['C', 'A', 'L', 'L'], (u.dropWhile pyIsSpace).takeWhile (fun c => !pyIsSpace c),
            ((u.dropWhile pyIsSpace).dropWhile (fun c => !pyIsSpace c)).dropWhile
              pyIsSpace]) := by
  simp [pySplit2, List.dropWhile_cons, List.takeWhile_cons,
    pyIsSpace_C, pyIsSpace_A, pyIsSpace_L, pyIsSpace_blank]

/-- Decomposition of a stripped text that passes the CALL guard: the text
is literally `"CALL"`, a whitespace run, the second whitespace-delimited
field, a whitespace run, and then — written verbatim, never re-split — the
raw-argument remainder returned as the third field of the split. -/
theorem callGuard_decomp (t : List Char) (hc : callGuard t = true) :
    ∃ ws1 ws2,
      t = "CALL".data ++ ws1 ++ (pySplit2 t).getD 1 [] ++ ws2 ++ (pySplit2 t).getD 2 [] ∧
      ws1 ≠ [] ∧
      (∀ c ∈ ws1, pyIsSpace c = true) ∧
      (∀ c ∈ ws2, pyIsSpace c = true) ∧
      (∀ c ∈ (pySplit2 t).getD 1 [], pyIsSpace c = false) ∧
      (∀ c cs, (pySplit2 t).getD 2 [] = c :: cs → pyIsSpace c = false) ∧
      (pySplit2 t).length ≤ 3 := by
  unfold callGuard at hc
  obtain ⟨u, hu⟩ := prefix_exists "CALL ".data t hc
  subst hu
  have hconv : ("CALL ".data ++ u) = 'C' :: 'A' :: 'L' :: 'L' :: ' ' :: u := rfl
  rw [hconv, pySplit2_call]
  have hCALL : "CALL".data = ['C', 'A', 'L', 'L'] := rfl
  by_cases h1 : u.dropWhile pyIsSpace = []
  · rw [if_pos h1]
    refine ⟨' ' :: u, [], ?_, by simp, ?_, by simp, by simp [List.getD], by simp [List.getD],
      by simp⟩
    · simp [hCALL, List.getD]
    · intro c hcm
      rcases List.mem_cons.mp hcm with h | h
      · rw [h]; rfl
      · exact dropWhile_eq_nil_all h1 c h
  · rw [if_neg h1]
    have e1 : u.takeWhile pyIsSpace ++ u.dropWhile pyIsSpace = u :=
      List.takeWhile_append_dropWhile pyIsSpace u
    have e2 : (u.dropWhile pyIsSpace).takeWhile (fun c => !pyIsSpace c) ++
        (u.dropWhile pyIsSpace).dropWhile (fun c => !pyIsSpace c) = u.dropWhile pyIsSpace :=
      List.takeWhile_append_dropWhile _ _
    have hws1 : ∀ c ∈ ' ' :: u.takeWhile pyIsSpace, pyIsSpace c = true := by
      intro c hcm
      rcases List.mem_cons.mp hcm with h | h
      · rw [h]; rfl
      · exact mem_takeWhile_eq h
    have htool : ∀ c ∈ (u.dropWhile pyIsSpace).takeWhile (fun c => !pyIsSpace c),
        pyIsSpace c = false := by
      intro c hcm
      simpa using mem_takeWhile_eq hcm
    by_cases h2 : ((u.dropWhile pyIsSpace).dropWhile (fun c => !pyIsSpace c)).dropWhile
        pyIsSpace = []
    · rw [if_pos h2]
      refine ⟨' ' :: u.takeWhile pyIsSpace,
        (u.dropWhile pyIsSpace).dropWhile (fun c => !pyIsSpace c), ?_, by simp, hws1,
        ?_, by simpa [List.getD] using htool, by simp [List.getD], by simp⟩
      · have key : u.takeWhile pyIsSpace ++
            ((u.dropWhile pyIsSpace).takeWhile (fun c => !pyIsSpace c) ++
              ((u.dropWhile pyIsSpace).dropWhile (fun c => !pyIsSpace c) ++ [])) = u := by
          rw [List.append_nil, e2, e1]
        simp only [hCALL, List.getD, List.get?, Option.getD_some, Option.getD_none,
          List.cons_append, List.nil_append, List.append_assoc]
        rw [key]
      · intro c hcm
        exact dropWhile_eq_nil_all h2 c hcm
    · rw [if_neg h2]
      have e3 : ((u.dropWhile pyIsSpace).dropWhile (fun c => !pyIsSpace c)).takeWhile
            pyIsSpace ++
          ((u.dropWhile pyIsSpace).dropWhile (fun c => !pyIsSpace c)).dropWhile pyIsSpace =
          (u.dropWhile pyIsSpace).dropWhile (fun c => !pyIsSpace c) :=
        List.takeWhile_append_dropWhile _ _
      refine ⟨' ' :: u.takeWhile pyIsSpace,
        ((u.dropWhile pyIsSpace).dropWhile (fun c => !pyIsSpace c)).takeWhile pyIsSpace,
        ?_, by simp, hws1, ?_, by simpa [List.getD] using htool, ?_, by simp⟩
      · have key : u.takeWhile pyIsSpace ++
            ((u.dropWhile pyIsSpace).takeWhile (fun c => !pyIsSpace c) ++
              (((u.dropWhile pyIsSpace).dropWhile (fun c => !pyIsSpace c)).takeWhile
                  pyIsSpace ++
                ((u.dropWhile pyIsSpace).dropWhile (fun c => !pyIsSpace c)).dropWhile
                  pyIsSpace)) = u := by
          rw [e3, e2, e1]
        simp only [hCALL, List.getD, List.get?, Option.getD_some, List.cons_append,
          List.nil_append, List.append_assoc]
        rw [key]
      · intro c hcm
        exact mem_takeWhile_eq hcm
      · intro c cs h
        exact dropWhile_head_false h

theorem answerGuard_of_take (t : List Char) (h : upperL (t.take 7) = "ANSWER:".data) :
    answerGuard t = true := by
  have h' : (t.take 7).map asciiUpper = "ANSWER:".data := h
  have hsplit : t.map asciiUpper = "ANSWER:".data ++ (t.drop 7).map asciiUpper := by
    conv_lhs => rw [← List.take_append_drop 7 t]
    rw [List.map_append, h']
  unfold answerGuard upperL
  rw [hsplit]
  exact isPrefixOf_append_self _ _

theorem take_of_answerGuard (t : List Char) (h : answerGuard t = true) :
    upperL (t.take 7) = "ANSWER:".data := by
  unfold answerGuard at h
  obtain ⟨u, hu⟩ := prefix_exists _ _ h
  have h7 : ("ANSWER:".data).length = 7 := rfl
  calc upperL (t.take 7) = (upperL t).take 7 := by unfold upperL; rw [List.map_take]
    _ = "ANSWER:".data := by rw [hu, List.take_left' h7]

/-- The ANSWER guard holds exactly when the first 7 characters of the
(stripped) text match `"ANSWER:"` case-insensitively. -/
theorem answerGuard_iff (t : List Char) :
    answerGuard t = true ↔ upperL (t.take 7) = "ANSWER:".data :=
  ⟨take_of_answerGuard t, answerGuard_of_take t⟩

/-- C4: for every response whose trimmed text's first 7 characters match
"ANSWER:" case-insensitively, the parser yields an answer decision whose
payload is the remainder after the prefix, trimmed of surrounding
whitespace; the check has strict priority over the CALL check, so such a
response is never parsed as a tool call. -/
theorem claim_c4 (r : String)
    (h : upperL ((stripL r.data).take 7) = "ANSWER:".data) :
    KGAgent.parse_llm_response r =
      { action := "answer",
        payload := Payload.strP (String.mk (stripL ((stripL r.data).drop 7))) } ∧
    (KGAgent.parse_llm_response r).action ≠ "call_tool" := by
  have hg := answerGuard_of_take _ h
  refine ⟨parse_eq_answer r hg, ?_⟩
  rw [parse_eq_answer r hg]
  simp

/-- Witness for C4 at the concrete response "answer: 42 CALL x": the
lower-case ANSWER prefix wins over the embedded CALL and the payload is
the trimmed remainder. -/
theorem claim_c4_witness :
    KGAgent.parse_llm_response "answer: 42 CALL x" =
      { action := "answer", payload := Payload.strP "42 CALL x" } ∧
    (KGAgent.parse_llm_response "answer: 42 CALL x").action ≠ "call_tool" := by
  have h := claim_c4 "answer: 42 CALL x" (by decide)
  exact ⟨h.1.trans (by decide), h.2⟩

/-- C3: for every response whose trimmed text does not match the ANSWER
prefix: if it starts with the literal prefix "CALL " the parser splits
into at most 3 whitespace-delimited fields and yields a call_tool decision
whose tool name is the second field (empty if absent) and whose
raw-argument payload is the verbatim remainder (empty if absent, never
re-split — the decomposition exhibits it as a contiguous untouched suffix
that may itself contain spaces); for any other text the parser yields a
run_program decision carrying the full trimmed text. -/
theorem claim_c3 (r : String)
    (ha : upperL ((stripL r.data).take 7) ≠ "ANSWER:".data) :
    (callGuard (stripL r.data) = true →
      KGAgent.parse_llm_response r =
        { action := "call_tool",
          payload := Payload.toolArgs
            (String.mk ((pySplit2 (stripL r.data)).getD 1 []))
            (String.mk ((pySplit2 (stripL r.data)).getD 2 [])) } ∧
      (pySplit2 (stripL r.data)).length ≤ 3 ∧
      ∃ ws1 ws2,
        stripL r.data = "CALL".data ++ ws1 ++ (pySplit2 (stripL r.data)).getD 1 [] ++
          ws2 ++ (pySplit2 (stripL r.data)).getD 2 [] ∧
        ws1 ≠ [] ∧
        (∀ c ∈ ws1, pyIsSpace c = true) ∧
        (∀ c ∈ ws2, pyIsSpace c = true) ∧
        (∀ c ∈ (pySplit2 (stripL r.data)).getD 1 [], pyIsSpace c = false) ∧
        (∀ c cs, (pySplit2 (stripL r.data)).getD 2 [] = c :: cs → pyIsSpace c = false)) ∧
    (callGuard (stripL r.data) = false →
      KGAgent.parse_llm_response r =
        { action := "run_program", payload := Payload.strP (String.mk (stripL r.data)) }) := by
  have hg : answerGuard (stripL r.data) = false := by
    rcases Bool.eq_false_or_eq_true (answerGuard (stripL r.data)) with h | h
    · exact absurd (take_of_answerGuard _ h) ha
    · exact h
  constructor
  · intro hc
    obtain ⟨ws1, ws2, hdec, hne, hw1, hw2, htool, hargs, hlen⟩ := callGuard_decomp _ hc
    exact ⟨parse_eq_call r hg hc, hlen, ws1, ws2, hdec, hne, hw1, hw2, htool, hargs⟩
  · intro hc
    exact parse_eq_program r hg hc

/-- Witness for C3: the CALL branch on "CALL toolA some args here" (the
raw-argument field keeps its internal spaces) and the run_program branch
on "FIND path". -/
theorem claim_c3_witness :
    (KGAgent.parse_llm_response "CALL toolA some args here" =
      { action := "call_tool", payload := Payload.toolArgs "toolA" "some args here" }) ∧
    (KGAgent.parse_llm_response "FIND path" =
      { action := "run_program", payload := Payload.strP "FIND path" }) := by
  constructor
  · have h := (claim_c3 "CALL toolA some args here" (by decide)).1 (by decide)
    exact h.1.trans (by decide)
  · have h := (claim_c3 "FIND path" (by decide)).2 (by decide)
    exact h.trans (by decide)

/-- C7: Toolbox.call on a name absent from the registry fails with the
lookup-miss error (the KeyError playing the spec's ToolNotFoundError
role) and leaves the registry unchanged; on a registered name it invokes
exactly the callable bound to that name, exactly once (the invocation
trace is the single pair of that name and the given argument), with
exactly the given argument, and returns its result. -/
theorem claim_c7 (tb : Toolbox) (name args : String) :
    (Toolbox.lookup tb name = Option.none →
      (Toolbox.call tb name args).1 = Except.error (CallErr.keyError (keyErrMsg name)) ∧
      (Toolbox.call tb name args).2 = tb ∧
      (Toolbox.callTraced tb name args).2 = []) ∧
    (∀ fn : ToolFn, Toolbox.lookup tb name = Option.some fn →
      (Toolbox.call tb name args).1 =
        (match fn args with
         | Except.ok v => Except.ok v
         | Except.error m => Except.error (CallErr.toolRaised m)) ∧
      (Toolbox.call tb name args).2 = tb ∧
      (Toolbox.callTraced tb name args).2 = [(name, args)]) := by
  constructor
  · intro h
    refine ⟨?_, rfl, ?_⟩
    · simp [Toolbox.call, Toolbox.callRes, h]
    · simp [Toolbox.callTraced, h]
  · intro fn h
    refine ⟨?_, rfl, ?_⟩
    · simp [Toolbox.call, Toolbox.callRes, h]
    · simp only [Toolbox.callTraced, h]
      cases hfa : fn args <;> simp [hfa]

/-- Witness for C7 with a one-tool registry: the unregistered name
"missing" raises the lookup-miss error, and the registered "echo" tool is
invoked exactly once with the raw argument and its result returned. -/
theorem claim_c7_witness :
    (Toolbox.call (Toolbox.register [] "echo" (fun a => Except.ok (PyVal.str a)))
        "missing" "x").1 =
      Except.error (CallErr.keyError (keyErrMsg "missing")) ∧
    (Toolbox.call (Toolbox.register [] "echo" (fun a => Except.ok (PyVal.str a)))
        "missing" "x").2 =
      Toolbox.register [] "echo" (fun a => Except.ok (PyVal.str a)) ∧
    (Toolbox.call (Toolbox.register [] "echo" (fun a => Except.ok (PyVal.str a)))
        "echo" "x").1 = Except.ok (PyVal.str "x") ∧
    (Toolbox.callTraced (Toolbox.register [] "echo" (fun a => Except.ok (PyVal.str a)))
        "echo" "x").2 = [("echo", "x")] := by
  have h1 := (claim_c7 (Toolbox.register [] "echo" (fun a => Except.ok (PyVal.str a)))
    "missing" "x").1 rfl
  have h2 := (claim_c7 (Toolbox.register [] "echo" (fun a => Except.ok (PyVal.str a)))
    "echo" "x").2 (fun a => Except.ok (PyVal.str a)) rfl
  exact ⟨h1.1, h1.2.1, by rw [h2.1], h2.2.2⟩

/-- C8: Memory.add followed by Memory.query() yields a sequence whose last
element is the added record and whose length grew by exactly one; and
Memory.query(key) returns exactly the stored records containing `key` as a
top-level field (membership is equivalent to being a stored record with
the key; the result is a sublist of the log, hence in original insertion
order). -/
theorem claim_c8 (m : Memory) (item rc : MemRecord) (k : String) :
    (Memory.query (Memory.add m item) Option.none).getLast? = some item ∧
    (Memory.query (Memory.add m item) Option.none).length =
      (Memory.query m Option.none).length + 1 ∧
    (rc ∈ Memory.query m (Option.some k) ↔ rc ∈ m ∧ pyInKey k rc = true) ∧
    (Memory.query m (Option.some k)).Sublist m := by
  refine ⟨?_, ?_, ?_, ?_⟩
  · simp [Memory.query, Memory.add]
  · simp [Memory.query, Memory.add]
  · simp [Memory.query, List.mem_filter]
  · simpa [Memory.query] using List.filter_sublist m

/-- C10: with max_steps at most 0, run never invokes the LLM, appends
exactly one record (the timeout record) to Memory, and returns the fixed
timeout summary; the constructor default for max_steps is 10. -/
theorem claim_c10 (llm : String → Nat → String) (tb : Toolbox) (ex : String → PyVal)
    (q : String) (ms : Int) (h : ms ≤ 0) :
    KGAgent.run llm tb ex q ms =
      { result := PyVal.str timeoutSummary, added := [timeoutRec],
        stateSteps := [], llmCalls := 0 } ∧
    KGAgent.defaultMaxSteps = 10 := by
  refine ⟨?_, rfl⟩
  unfold KGAgent.run
  rw [Int.toNat_of_nonpos h]
  rfl

/-- Witness for C10 at max_steps = -2 (the LLM stub would answer at once
if it were ever consulted, and it is not). -/
theorem claim_c10_witness :
    KGAgent.run (fun _ _ => "ANSWER: demo") [] KGExecutor.execute_program "q" (-2) =
      { result := PyVal.str timeoutSummary, added := [timeoutRec],
        stateSteps := [], llmCalls := 0 } ∧
    KGAgent.defaultMaxSteps = 10 :=
  claim_c10 (fun _ _ => "ANSWER: demo") [] KGExecutor.execute_program "q" (-2) (by decide)

/-- C6: for every LLM collaborator that returns "ANSWER: demo" on its
first invocation (the call with the initial-state prompt and step 0), run
returns "demo" after exactly one iteration — exactly one LLM invocation —
and the records added to the (initially empty) Memory are exactly one
final_answer record with step 0. -/
theorem claim_c6 (llm : String → Nat → String) (tb : Toolbox) (ex : String → PyVal)
    (q : String) (ms : Int) (hms : 1 ≤ ms)
    (h0 : llm (KGAgent.format_prompt q []) 0 = "ANSWER: demo") :
    (KGAgent.run llm tb ex q ms).result = PyVal.str "demo" ∧
    (KGAgent.run llm tb ex q ms).llmCalls = 1 ∧
    (KGAgent.run llm tb ex q ms).added =
      [[("type", PyVal.str "final_answer"), ("answer", PyVal.str "demo"),
        ("step", PyVal.int 0)]] := by
  obtain ⟨k, hk⟩ : ∃ k, ms.toNat = k + 1 := ⟨ms.toNat - 1, by omega⟩
  have hp : KGAgent.parse_llm_response (llm (KGAgent.format_prompt q []) 0) =
      { action := "answer", payload := Payload.strP "demo" } := by
    rw [h0]
    decide
  unfold KGAgent.run
  rw [hk, runAux_succ_answer llm tb ex q 0 k [] "demo" hp]
  exact ⟨rfl, rfl, rfl⟩

/-- Witness for C6: the constant "ANSWER: demo" stub with the default
max_steps of 10. -/
theorem claim_c6_witness :
    (KGAgent.run (fun _ _ => "ANSWER: demo") [] KGExecutor.execute_program "q" 10).result =
      PyVal.str "demo" ∧
    (KGAgent.run (fun _ _ => "ANSWER: demo") [] KGExecutor.execute_program "q" 10).llmCalls
      = 1 ∧
    (KGAgent.run (fun _ _ => "ANSWER: demo") [] KGExecutor.execute_program "q" 10).added =
      [[("type", PyVal.str "final_answer"), ("answer", PyVal.str "demo"),
        ("step", PyVal.int 0)]] :=
  claim_c6 (fun _ _ => "ANSWER: demo") [] KGExecutor.execute_program "q" 10 (by decide) rfl

/-- C2: whenever an iteration's response parses to a call_tool decision
and Toolbox.call raises — the lookup-miss KeyError or any error surfaced
by the tool — the loop does not propagate the exception: the step's out
value becomes the error record carrying str(e), a tool record is appended
to Memory and the corresponding entry to the state's steps, and the run
continues with the next iteration (the outcome is that of the recursive
call at step + 1 on the extended state). -/
theorem claim_c2 (llm : String → Nat → String) (tb : Toolbox) (ex : String → PyVal)
    (q : String) (step fuel : Nat) (st : List MemRecord) (t a : String) (e : CallErr)
    (hp : KGAgent.parse_llm_response (llm (KGAgent.format_prompt q st) step) =
      { action := "call_tool", payload := Payload.toolArgs t a })
    (he : (Toolbox.call tb t a).1 = Except.error e) :
    toolOut tb t a = PyVal.dict [("error", PyVal.str e.pyStr)] ∧
    toolMemRec tb t a step =
      [("type", PyVal.str "tool"), ("tool", PyVal.str t),
       ("out", PyVal.dict [("error", PyVal.str e.pyStr)]), ("step", PyVal.int step)] ∧
    toolStateEntry tb t a =
      [("action", PyVal.str "call_tool"), ("tool", PyVal.str t),
       ("out", PyVal.dict [("error", PyVal.str e.pyStr)])] ∧
    KGAgent.runAux llm tb ex q step (fuel + 1) st =
      { result :=
          (KGAgent.runAux llm tb ex q (step + 1) fuel
            (st ++ [toolStateEntry tb t a])).result,
        added := toolMemRec tb t a step ::
          (KGAgent.runAux llm tb ex q (step + 1) fuel (st ++ [toolStateEntry tb t a])).added,
        stateSteps :=
          (KGAgent.runAux llm tb ex q (step + 1) fuel
            (st ++ [toolStateEntry tb t a])).stateSteps,
        llmCalls :=
          (KGAgent.runAux llm tb ex q (step + 1) fuel
            (st ++ [toolStateEntry tb t a])).llmCalls + 1 } := by
  have hout : toolOut tb t a = PyVal.dict [("error", PyVal.str e.pyStr)] := by
    unfold toolOut
    rw [he]
  refine ⟨hout, ?_, ?_, runAux_succ_tool llm tb ex q step fuel st t a hp⟩
  · unfold toolMemRec
    rw [hout]
  · unfold toolStateEntry
    rw [hout]

/-- Witness for C2: the stub returns "CALL missing_tool x" against an
empty registry at step 0 with one remaining iteration; the lookup-miss
error is recorded and the loop proceeds (here into fuel exhaustion). -/
theorem claim_c2_witness :
    toolOut [] "missing_tool" "x" =
      PyVal.dict [("error",
        PyVal.str (CallErr.pyStr (CallErr.keyError (keyErrMsg "missing_tool"))))] ∧
    toolMemRec [] "missing_tool" "x" 0 =
      [("type", PyVal.str "tool"), ("tool", PyVal.str "missing_tool"),
       ("out", PyVal.dict [("error",
         PyVal.str (CallErr.pyStr (CallErr.keyError (keyErrMsg "missing_tool"))))]),
       ("step", PyVal.int 0)] ∧
    toolStateEntry [] "missing_tool" "x" =
      [("action", PyVal.str "call_tool"), ("tool", PyVal.str "missing_tool"),
       ("out", PyVal.dict [("error",
         PyVal.str (CallErr.pyStr (CallErr.keyError (keyErrMsg "missing_tool"))))])] ∧
    KGAgent.runAux (fun _ _ => "CALL missing_tool x") [] KGExecutor.execute_program "q" 0
        (0 + 1) [] =
      { result :=
          (KGAgent.runAux (fun _ _ => "CALL missing_tool x") [] KGExecutor.execute_program
            "q" (0 + 1) 0 ([] ++ [toolStateEntry [] "missing_tool" "x"])).result,
        added := toolMemRec [] "missing_tool" "x" 0 ::
          (KGAgent.runAux (fun _ _ => "CALL missing_tool x") [] KGExecutor.execute_program
            "q" (0 + 1) 0 ([] ++ [toolStateEntry [] "missing_tool" "x"])).added,
        stateSteps :=
          (KGAgent.runAux (fun _ _ => "CALL missing_tool x") [] KGExecutor.execute_program
            "q" (0 + 1) 0 ([] ++ [toolStateEntry [] "missing_tool" "x"])).stateSteps,
        llmCalls :=
          (KGAgent.runAux (fun _ _ => "CALL missing_tool x") [] KGExecutor.execute_program
            "q" (0 + 1) 0 ([] ++ [toolStateEntry [] "missing_tool" "x"])).llmCalls + 1 } :=
  claim_c2 (fun _ _ => "CALL missing_tool x") [] KGExecutor.execute_program "q" 0 0 []
    "missing_tool" "x" (CallErr.keyError (keyErrMsg "missing_tool")) (by decide) rfl

/-- Against an LLM whose every response fails both the ANSWER and the CALL
guard, every iteration takes the run_program branch: the loop performs
exactly `fuel` iterations (one LLM invocation each), appends one program
record per iteration followed by the timeout record, and returns the
fixed summary. -/
theorem runAux_all_program (llm : String → Nat → String) (tb : Toolbox) (ex : String → PyVal)
    (q : String)
    (h : ∀ p i, answerGuard (stripL (llm p i).data) = false ∧
      callGuard (stripL (llm p i).data) = false) :
    ∀ (fuel step : Nat) (st : List MemRecord),
    (KGAgent.runAux llm tb ex q step fuel st).llmCalls = fuel ∧
    (KGAgent.runAux llm tb ex q step fuel st).added.map (fun rc => pyLookup rc "type") =
      List.replicate fuel (some (PyVal.str "program")) ++ [some (PyVal.str "timeout")] ∧
    (KGAgent.runAux llm tb ex q step fuel st).result = PyVal.str timeoutSummary := by
  intro fuel
  induction fuel with
  | zero =>
    intro step st
    refine ⟨rfl, ?_, rfl⟩
    rw [runAux_zero]
    simp [timeoutRec_type]
  | succ fuel ih =>
    intro step st
    have hp := parse_eq_program (llm (KGAgent.format_prompt q st) step)
      (h _ step).1 (h _ step).2
    rw [runAux_succ_program llm tb ex q step fuel st _ hp]
    obtain ⟨ih1, ih2, ih3⟩ := ih (step + 1)
      (st ++ [progStateEntry ex (String.mk (stripL (llm (KGAgent.format_prompt q st) step).data))])
    refine ⟨by simpa using ih1, ?_, ih3⟩
    simp only [List.map_cons, progMemRec_type, ih2, List.replicate_succ, List.cons_append]

/-- C5: for every LLM collaborator whose responses never match the ANSWER
or CALL prefix, run with max_steps = 3 performs exactly 3 iterations
(exactly 3 LLM invocations), appending exactly 3 program records followed
by the timeout record, and returns the fixed timeout summary. -/
theorem claim_c5 (llm : String → Nat → String) (tb : Toolbox) (q : String)
    (h : ∀ p i, answerGuard (stripL (llm p i).data) = false ∧
      callGuard (stripL (llm p i).data) = false) :
    (KGAgent.run llm tb KGExecutor.execute_program q 3).llmCalls = 3 ∧
    (KGAgent.run llm tb KGExecutor.execute_program q 3).added.map
        (fun rc => pyLookup rc "type") =
      [some (PyVal.str "program"), some (PyVal.str "program"), some (PyVal.str "program"),
       some (PyVal.str "timeout")] ∧
    (KGAgent.run llm tb KGExecutor.execute_program q 3).result =
      PyVal.str timeoutSummary := by
  have k := runAux_all_program llm tb KGExecutor.execute_program q h 3 0 []
  unfold KGAgent.run
  have h3 : (3 : Int).toNat = 3 := rfl
  rw [h3]
  simpa using k

/-- Witness for C5: the constant stub "think" with an empty registry. -/
theorem claim_c5_witness :
    (KGAgent.run (fun _ _ => "think") [] KGExecutor.execute_program "q" 3).llmCalls = 3 ∧
    (KGAgent.run (fun _ _ => "think") [] KGExecutor.execute_program "q" 3).added.map
        (fun rc => pyLookup rc "type") =
      [some (PyVal.str "program"), some (PyVal.str "program"), some (PyVal.str "program"),
       some (PyVal.str "timeout")] ∧
    (KGAgent.run (fun _ _ => "think") [] KGExecutor.execute_program "q" 3).result =
      PyVal.str timeoutSummary :=
  claim_c5 (fun _ _ => "think") [] "q" (fun _ _ =>
    ⟨(by decide : answerGuard (stripL ("think" : String).data) = false),
     (by decide : callGuard (stripL ("think" : String).data) = false)⟩)

/-- Either a run's result is the fixed timeout summary, or it is the
payload of an answer decision parsed from one of the responses the LLM
gave during the run. -/
theorem runAux_result_shape (llm : String → Nat → String) (tb : Toolbox)
    (ex : String → PyVal) (q : String) :
    ∀ (fuel step : Nat) (st : List MemRecord),
    (KGAgent.runAux llm tb ex q step fuel st).result = PyVal.str timeoutSummary ∨
    ∃ (st' : List MemRecord) (step' : Nat) (s : String),
      KGAgent.parse_llm_response (llm (KGAgent.format_prompt q st') step') =
        { action := "answer", payload := Payload.strP s } ∧
      (KGAgent.runAux llm tb ex q step fuel st).result = PyVal.str s := by
  intro fuel
  induction fuel with
  | zero => intro step st; left; rfl
  | succ fuel ih =>
    intro step st
    rcases parse_cases (llm (KGAgent.format_prompt q st) step) with ⟨s, hp⟩ | ⟨t, a, hp⟩ |
      ⟨s, hp⟩
    · right
      refine ⟨st, step, s, hp, ?_⟩
      rw [runAux_succ_answer llm tb ex q step fuel st s hp]
    · rw [runAux_succ_tool llm tb ex q step fuel st t a hp]
      rcases ih (step + 1) (st ++ [toolStateEntry tb t a]) with h | ⟨st', step', s, hp', hr⟩
      · left; exact h
      · right; exact ⟨st', step', s, hp', hr⟩
    · rw [runAux_succ_program llm tb ex q step fuel st s hp]
      rcases ih (step + 1) (st ++ [progStateEntry ex s]) with h | ⟨st', step', s', hp', hr⟩
      · left; exact h
      · right; exact ⟨st', step', s', hp', hr⟩

/-- C9: the parser's action tag is always one of exactly 'answer',
'call_tool' and 'run_program', so the catch-all "no valid action" break at
the end of run's dispatch chain is unreachable; consequently every run
returns either the payload of an answer decision parsed from one of its
LLM responses or the exact fixed timeout summary string — no third
outcome exists. -/
theorem claim_c9 (r : String) (llm : String → Nat → String) (tb : Toolbox)
    (ex : String → PyVal) (q : String) (ms : Int) :
    ((KGAgent.parse_llm_response r).action = "answer" ∨
      (KGAgent.parse_llm_response r).action = "call_tool" ∨
      (KGAgent.parse_llm_response r).action = "run_program") ∧
    ((KGAgent.run llm tb ex q ms).result = PyVal.str timeoutSummary ∨
      ∃ (st : List MemRecord) (step : Nat) (s : String),
        KGAgent.parse_llm_response (llm (KGAgent.format_prompt q st) step) =
          { action := "answer", payload := Payload.strP s } ∧
        (KGAgent.run llm tb ex q ms).result = PyVal.str s) := by
  constructor
  · rcases parse_cases r with ⟨s, hp⟩ | ⟨t, a, hp⟩ | ⟨s, hp⟩ <;> rw [hp]
    · exact Or.inl rfl
    · exact Or.inr (Or.inl rfl)
    · exact Or.inr (Or.inr rfl)
  · exact runAux_result_shape llm tb ex q ms.toNat 0 []

/-- C1 counterexample: the claim that every record added to Memory during
a run carries a `step` field fails on the concrete run with the constant
response "x" and max_steps = 1 — the timeout record appended after the
loop (`{'type': 'timeout', 'summary': ...}`) has no `step` key. -/
theorem claim_c1_counterexample :
    ¬ (∀ rc ∈ (KGAgent.run (fun _ _ => "x") [] KGExecutor.execute_program "q" 1).added,
        pyInKey "step" rc = true) := by decide

/-- C1 (amended): every record added to Memory during a run except the
trailing timeout record (which carries no `step` key) has a `step` value
equal to the loop iteration that produced it — the record at position `j`
of the added-records list is produced by iteration `j` — and the `step`
values of the records that carry one are monotonically non-decreasing in
the order the records were added. -/
theorem claim_c1_amended (llm : String → Nat → String) (tb : Toolbox) (ex : String → PyVal)
    (q : String) (ms : Int) (j1 j2 : Nat) (r1 r2 : MemRecord)
    (h1 : (KGAgent.run llm tb ex q ms).added.get? j1 = some r1)
    (h2 : (KGAgent.run llm tb ex q ms).added.get? j2 = some r2)
    (hj : j1 ≤ j2) :
    (pyLookup r1 "type" ≠ some (PyVal.str "timeout") →
      pyLookup r1 "step" = some (PyVal.int j1)) ∧
    (∀ s1 s2 : Int, pyLookup r1 "step" = some (PyVal.int s1) →
      pyLookup r2 "step" = some (PyVal.int s2) → s1 ≤ s2) := by
  have k1 := runAux_added_lookup llm tb ex q ms.toNat 0 [] j1 r1 h1
  have k2 := runAux_added_lookup llm tb ex q ms.toNat 0 [] j2 r2 h2
  constructor
  · intro ht
    rcases k1 with k | k
    · simpa using k
    · exact absurd k.2 ht
  · intro s1 s2 hs1 hs2
    rcases k1 with k | k
    · rcases k2 with k' | k'
      · rw [hs1] at k
        rw [hs2] at k'
        have e1 : s1 = ((j1 : Nat) : Int) := by
          have := Option.some.inj k
          have := PyVal.int.inj this
          omega
        have e2 : s2 = ((j2 : Nat) : Int) := by
          have := Option.some.inj k'
          have := PyVal.int.inj this
          omega
        rw [e1, e2]
        exact_mod_cast hj
      · rw [hs2] at k'
        exact absurd k'.1 (by simp)
    · rw [hs1] at k
      exact absurd k.1 (by simp)

/-- Witness for the amended C1 on a concrete two-iteration run: the first
two added records are program records with steps 0 and 1 respectively,
and their step values are non-decreasing. -/
theorem claim_c1_amended_witness :
    (pyLookup (progMemRec KGExecutor.execute_program "x" 0) "type" ≠
        some (PyVal.str "timeout") →
      pyLookup (progMemRec KGExecutor.execute_program "x" 0) "step" =
        some (PyVal.int 0)) ∧
    (∀ s1 s2 : Int,
      pyLookup (progMemRec KGExecutor.execute_program "x" 0) "step" =
        some (PyVal.int s1) →
      pyLookup (progMemRec KGExecutor.execute_program "x" 1) "step" =
        some (PyVal.int s2) → s1 ≤ s2) :=
  claim_c1_amended (fun _ _ => "x") [] KGExecutor.execute_program "q" 2 0 1
    (progMemRec KGExecutor.execute_program "x" 0)
    (progMemRec KGExecutor.execute_program "x" 1) rfl rfl (by decide)
